import Mathlib

/-!
Verification model of the static site generator in `main.go`.

The generator reads markdown posts with YAML-ish front matter, validates
title and date, derives a slug from the filename, builds schema.org
structured data, sorts the collection by publish date descending, and
renders post pages, an index, an Atom feed and a sitemap.

All string operations are modelled at the Unicode code-point level
(`String.data : List Char`); the Go code operates on UTF-8 bytes, but every
delimiter and suffix involved (`---`, `.md`, `]]>`, ...) is ASCII, so the
two views agree.  I/O is made explicit: a directory listing becomes a list
of `DirEntry` values, each carrying the result of reading the file, and the
external markdown renderer (goldmark, an external library the spec treats
as an opaque capability) is a function parameter `render : String → String`.
-/

namespace SiteGen

/-- Characters Go `unicode.IsSpace` treats as space (the ASCII and Latin-1
subset; the only ones relevant to the inputs of this program). -/
def isSpaceChar (c : Char) : Bool :=
  c = ' ' || c = '\t' || c = '\n' || c = '\x0d' || c = '\x0b' || c = '\x0c' ||
  c = '\x85' || c = '\xa0'

/-- Model of Go `strings.TrimSpace`: drop leading and trailing whitespace. -/
def trimSpace (s : String) : String :=
  ⟨((s.data.dropWhile isSpaceChar).reverse.dropWhile isSpaceChar).reverse⟩

/-- Model of Go `strings.HasSuffix`. -/
def goHasSuffix (s suffix : String) : Bool :=
  suffix.data.isSuffixOf s.data

/-- Model of Go `strings.TrimSuffix`: remove `suffix` once, if present. -/
def goTrimSuffix (s suffix : String) : String :=
  if goHasSuffix s suffix then ⟨s.data.take (s.data.length - suffix.data.length)⟩ else s

/-- Model of Go `strings.HasPrefix` (written over `List.isPrefixOf`). -/
def startsWithKey (s pre : String) : Bool :=
  pre.data.isPrefixOf s.data

/-- Model of Go `strings.TrimPrefix` under a `startsWithKey` guard:
drop the first `pre.length` characters. -/
def dropKey (s pre : String) : String :=
  ⟨s.data.drop pre.data.length⟩

/-- Split a character list at every newline, Go `strings.Split(s, "\n")`
semantics: `n` separators yield `n+1` (possibly empty) segments. -/
def splitLinesChars : List Char → List (List Char)
  | [] => [[]]
  | c :: rest =>
    if c = '\n' then [] :: splitLinesChars rest
    else
      match splitLinesChars rest with
      | [] => [[c]]
      | l :: ls => (c :: l) :: ls

/-- Model of Go `strings.Split(content, "\n")`. -/
def goSplitLines (s : String) : List String :=
  (splitLinesChars s.data).map (fun l => ⟨l⟩)

/-- Model of Go `strings.Join(lines, "\n")`. -/
def joinNL : List String → String
  | [] => ""
  | [s] => s
  | s :: rest => s ++ "\n" ++ joinNL rest

/-! ## Calendar dates

`time.Parse("2006-01-02", s)` produces a midnight-UTC `time.Time`; since every
date in the program is built this way, a plain calendar date with
lexicographic comparison is a faithful model of the `time.Time` values and of
`Time.After`. -/

/-- A calendar date, the image of Go `time.Parse("2006-01-02", ·)`.
The Go zero `time.Time` is January 1 of year 1, i.e. `⟨1, 1, 1⟩`. -/
structure CalDate where
  year : Nat
  month : Nat
  day : Nat
deriving DecidableEq, Repr

/-- Model of Go `time.Time.After` (strict `>`) on midnight dates:
lexicographic comparison. -/
def dateAfter (a b : CalDate) : Bool :=
  decide (b.year < a.year ∨ (b.year = a.year ∧
    (b.month < a.month ∨ (b.month = a.month ∧ b.day < a.day))))

/-- Go leap-year rule (`time.isLeap`). -/
def isLeap (y : Nat) : Bool :=
  y % 4 = 0 && (y % 100 != 0 || y % 400 = 0)

/-- Days in a month (`time.daysIn`). -/
def daysIn (y m : Nat) : Nat :=
  if m = 2 then (if isLeap y then 29 else 28)
  else if m = 4 ∨ m = 6 ∨ m = 9 ∨ m = 11 then 30
  else 31

/-- Numeric value of ten digit characters. -/
def digitVal (c : Char) : Nat := c.toNat - '0'.toNat

/-- Model of Go `time.Parse("2006-01-02", s)`: exactly ten characters
`YYYY-MM-DD`, all digit positions numeric, month in `1..12`, day in
`1..daysIn` (Go rejects out-of-range components and any extra text). -/
def parseDate (s : String) : Option CalDate :=
  match s.data with
  | [y1, y2, y3, y4, s1, m1, m2, s2, d1, d2] =>
    if y1.isDigit && y2.isDigit && y3.isDigit && y4.isDigit && s1 = '-' &&
       m1.isDigit && m2.isDigit && s2 = '-' && d1.isDigit && d2.isDigit then
      let y := ((digitVal y1 * 10 + digitVal y2) * 10 + digitVal y3) * 10 + digitVal y4
      let m := digitVal m1 * 10 + digitVal m2
      let d := digitVal d1 * 10 + digitVal d2
      if 1 ≤ m ∧ m ≤ 12 ∧ 1 ≤ d ∧ d ≤ daysIn y m then some ⟨y, m, d⟩ else none
    else none
  | _ => none

/-- Zero-pad to two digits (Go layout fragments `01`, `02`). -/
def pad2 (n : Nat) : String :=
  if n < 10 then "0" ++ toString n else toString n

/-- Zero-pad to four digits (Go layout fragment `2006`). -/
def pad4 (n : Nat) : String :=
  if n < 10 then "000" ++ toString n
  else if n < 100 then "00" ++ toString n
  else if n < 1000 then "0" ++ toString n
  else toString n

/-- Model of `Post.DateISO`: `Format("2006-01-02")`. -/
def dateISO (d : CalDate) : String :=
  pad4 d.year ++ "-" ++ pad2 d.month ++ "-" ++ pad2 d.day

/-- Model of `Post.DateRFC3339`: `Format(time.RFC3339)` of a midnight-UTC
instant. -/
def dateRFC3339 (d : CalDate) : String :=
  dateISO d ++ "T00:00:00Z"

/-! ## Front matter and metadata

`main.go:182-194` delegates front-matter extraction and YAML decoding to the
external goldmark `frontmatter` extension; `frontmatter.Get` yields nothing
(and `parsePost` then fails) when the document does not open with the
delimiter line. -/

/-- Scan for the closing delimiter line, accumulating metadata lines.
Returns `(metadata lines, remaining body lines)`. -/
def findClose : List String → List String → Option (List String × List String)
  | [], _ => none
  | l :: rest, acc =>
    if l = "---" then some (acc, rest) else findClose rest (acc ++ [l])

/-- Modelled from the spec: the front-matter split performed by the external
goldmark frontmatter extension (not part of this repository).  Per spec §4.1
the metadata block is "delimited by a marker line, conventionally `---`, at
the start and end of the block"; a document that does not open with the
delimiter (or that never closes it) carries no front matter, in which case
`frontmatter.Get` returns nil in `parsePost`. -/
def frontmatterSplit (content : String) : Option (List String × String) :=
  match goSplitLines content with
  | [] => none
  | first :: rest =>
    if first = "---" then
      (findClose rest []).map (fun mb => (mb.1, joinNL mb.2))
    else none

/-- The four recognised metadata fields (`postMeta` in `main.go:175-180`). -/
structure PostMeta where
  title : String
  date : String
  description : String
  cover : String
deriving DecidableEq, Repr

/-- Extract the value of one metadata field: the last line whose trimmed form
starts with `key` wins; the value is the trimmed remainder of that line. -/
def fieldValue (key : String) (lines : List String) : String :=
  lines.foldl
    (fun acc line =>
      let t := trimSpace line
      if startsWithKey t key then trimSpace (dropKey t key) else acc)
    ""

/-- Modelled from the spec: the YAML decoding done by `d.Decode(&meta)` via
the external yaml library.  Per spec §4.1 metadata parsing "recognizes
exactly four fields by key prefix — `title:`, `date:`, `description:`,
`cover:` — each a single-line string value with surrounding whitespace
trimmed. Unrecognized keys are silently ignored." -/
def decodeMeta (lines : List String) : PostMeta :=
  { title := fieldValue ("title:") lines
    date := fieldValue ("date:") lines
    description := fieldValue ("description:") lines
    cover := fieldValue ("cover:") lines }

/-! ## Structured data (`jsonLD`, `main.go:65-86` and `212-235`) -/

/-- Site constants from `main.go:22-27`. -/
def siteURL : String := "https://otrv.dev"

/-- Author identity used for both author and publisher. -/
def authorName : String := "Özgür Tanrıverdi"

/-- Model of `jsonLDPerson`.  `url` carries the `omitempty` JSON tag, so an empty Go
string is an omitted field; `none` models the omitted case. -/
structure JsonLDPerson where
  type_ : String
  name : String
  url : Option String
deriving DecidableEq, Repr

/-- Model of `jsonLDPage`. -/
structure JsonLDPage where
  type_ : String
  id : String
deriving DecidableEq, Repr

/-- Model of `jsonLD`.  `description` and `image` carry `omitempty`, so the empty Go
string is an omitted field; `none` models the omitted case. -/
structure JsonLD where
  context : String
  type_ : String
  headline : String
  description : Option String
  datePublished : String
  author : JsonLDPerson
  publisher : JsonLDPerson
  mainEntityOfPage : JsonLDPage
  image : Option String
deriving DecidableEq, Repr

/-- Construction of the structured-data object in `parsePost`
(`main.go:212-234`): headline from the title, RFC3339 publish date, constant
author/publisher identity, canonical page id `siteURL + "/" + slug + ".html"`,
and an image URL only when a cover is present. -/
def mkJsonLD (meta : PostMeta) (date : CalDate) (slug : String) : JsonLD :=
  { context := "https://schema.org"
    type_ := "BlogPosting"
    headline := meta.title
    description := if meta.description = "" then none else some meta.description
    datePublished := dateRFC3339 date
    author := { type_ := "Person", name := authorName, url := some siteURL }
    publisher := { type_ := "Person", name := authorName, url := none }
    mainEntityOfPage := { type_ := "WebPage", id := siteURL ++ "/" ++ slug ++ ".html" }
    image := if meta.cover = "" then none else some (siteURL ++ "/" ++ meta.cover) }

/-! ## The post model and `parsePost` (`main.go:55-63`, `182-246`) -/

/-- Errors raised by the two generations of `parsePost`, as structured values
mirroring the `fmt.Errorf` messages (each carries the data interpolated into
the message; every constructor names the offending file). -/
inductive PostError where
  /-- Error `missing front matter in %s` (main.go:188) -/
  | missingFrontMatter (filename : String)
  /-- Error `missing title in %s` (main.go:197) -/
  | missingTitle (filename : String)
  /-- Error `invalid date %q in %s: %w` (main.go:202) -/
  | invalidDate (raw : String) (filename : String)
  /-- Error `missing closing front matter --- in %s` (hand-rolled variant) -/
  | missingClosing (filename : String)
  /-- Error `missing or invalid date in %s` (hand-rolled variant) -/
  | missingDate (filename : String)
deriving DecidableEq, Repr

/-- Model of `Post` (`main.go:55-63`).  `Content` holds the markdown renderer's
output; `JSONLD` is kept as the structured object whose JSON serialization
`json.Marshal` would emit (`omitempty` fields modelled as `Option`). -/
structure Post where
  Title : String
  Date : CalDate
  Description : String
  Cover : String
  Slug : String
  Content : String
  JSONLD : JsonLD
deriving DecidableEq, Repr

/-- Model of `parsePost` (`main.go:182-246`): split off front matter (failing when the
document has none), decode the four metadata fields, require a non-empty
title, parse the date under the fixed `YYYY-MM-DD` layout, render the
document with the external renderer `render`, derive the slug by trimming
the `.md` suffix from the filename, and build the structured data. -/
def parsePost (render : String → String) (filename content : String) :
    Except PostError Post :=
  match frontmatterSplit content with
  | none => .error (.missingFrontMatter filename)
  | some (metaLines, _body) =>
    let meta := decodeMeta metaLines
    if meta.title = "" then .error (.missingTitle filename)
    else
      match parseDate meta.date with
      | none => .error (.invalidDate meta.date filename)
      | some date =>
        let slug := goTrimSuffix filename (".md")
        .ok { Title := meta.title
              Date := date
              Description := meta.description
              Cover := meta.cover
              Slug := slug
              Content := render content
              JSONLD := mkJsonLD meta date slug }

/-! ## The collection builder `parsePosts` (`main.go:146-173`) -/

instance {ε α : Type} [DecidableEq ε] [DecidableEq α] : DecidableEq (Except ε α) := fun
  | .error a, .error b =>
    if h : a = b then .isTrue (by rw [h])
    else .isFalse (by intro he; cases he; exact h rfl)
  | .error _, .ok _ => .isFalse (by intro h; cases h)
  | .ok _, .error _ => .isFalse (by intro h; cases h)
  | .ok a, .ok b =>
    if h : a = b then .isTrue (by rw [h])
    else .isFalse (by intro he; cases he; exact h rfl)

/-- One entry of the source directory, with the result of `os.ReadFile`
made explicit (`Except.error` is an I/O failure with its message). -/
structure DirEntry where
  name : String
  isDir : Bool
  content : Except String String
deriving DecidableEq, Repr

/-- The `continue` filter of `parsePosts` (`main.go:154`): subdirectories and
files not ending in `.md` are skipped. -/
def skipEntry (e : DirEntry) : Bool :=
  e.isDir || !(goHasSuffix e.name (".md"))

/-- Errors of `parsePosts`, mirroring its two `fmt.Errorf` wrappers. -/
inductive PostsError where
  /-- Error `read post %s: %w` with the joined path (main.go:161) -/
  | readError (path : String) (cause : String)
  /-- Error `parse post %s: %w` with the entry name (main.go:166) -/
  | parseError (filename : String) (cause : PostError)
deriving DecidableEq, Repr

/-- Model of `filepath.Join dir name` for a clean relative directory and a plain
entry name. -/
def joinPath (dir name : String) : String := dir ++ "/" ++ name

/-- Model of `parsePosts` (`main.go:146-173`): walk the directory entries in order,
skip directories and non-`.md` files, read and parse each remaining file,
and return at the first failure with an error naming the file — the Go
function returns `nil` for the collection in that case, which `Except.error`
models exactly (no partial collection exists in the error case). -/
def parsePosts (render : String → String) (dir : String) :
    List DirEntry → Except PostsError (List Post)
  | [] => .ok []
  | e :: es =>
    if skipEntry e then parsePosts render dir es
    else
      match e.content with
      | .error cause => .error (.readError (joinPath dir e.name) cause)
      | .ok content =>
        match parsePost render e.name content with
        | .error pe => .error (.parseError e.name pe)
        | .ok post => (parsePosts render dir es).map (fun ps => post :: ps)

/-- The error of `parsePosts` identifies directory entry `e`: a read error
carries the joined path of `e`, a parse error carries `e`'s name. -/
def errNamesEntry (dir : String) (err : PostsError) (e : DirEntry) : Prop :=
  match err with
  | .readError p _ => p = joinPath dir e.name
  | .parseError n _ => n = e.name

/-! ## Render targets (`main.go:248-328`) -/

/-- Output path of one post page (`main.go:250`):
`filepath.Join("public", post.Slug+".html")`. -/
def pagePath (p : Post) : String := "public/" ++ p.Slug ++ ".html"

/-- The files written by `generatePostPages` (`main.go:248-264`): one page
per post, in collection order, with no slug validation of any kind. -/
def postPagePaths (posts : List Post) : List String := posts.map pagePath

/-- The feed-level `updated` timestamp computed by `generateFeed`
(`main.go:291-296`, `299`): the first post's date in RFC3339 form, or the
current time (passed in pre-formatted, `time.Now().Format(time.RFC3339)`)
when the collection is empty. -/
def feedUpdated (posts : List Post) (nowRFC : String) : String :=
  match posts with
  | [] => nowRFC
  | p :: _ => dateRFC3339 p.Date

/-- The sitemap `LastUpdated` value computed by `generateSitemap`
(`main.go:314-319`): the first post's ISO date, or the current time
(pre-formatted with the date layout) when the collection is empty. -/
def sitemapLastUpdated (posts : List Post) (nowISO : String) : String :=
  match posts with
  | [] => nowISO
  | p :: _ => dateISO p.Date

/-- The newest (maximum) publish date of the non-empty collection
`p :: rest`. -/
def newestDate (p : Post) (rest : List Post) : CalDate :=
  rest.foldl (fun m q => if dateAfter q.Date m then q.Date else m) p.Date

/-! ## The sort in `main` (`main.go:121-123`)

`main` sorts with `sort.Slice(posts, func(i, j int) bool { return
posts[i].Date.After(posts[j].Date) })`.  `sort.Slice` is an external
standard-library routine; its documented contract is that the slice ends up
ordered by the less function and is a permutation of the input, and that
"the sort is not guaranteed to be stable".  The contract is modelled as a
relation between input and output. -/

/-- Sortedness as guaranteed by `sort.Slice` with less function
`posts[i].Date.After(posts[j].Date)`: no element strictly after a
predecessor, i.e. dates are non-increasing. -/
def goSortedDesc (posts : List Post) : Prop :=
  posts.Pairwise (fun a b => dateAfter b.Date a.Date = false)

/-- The documented contract of `sort.Slice` on `main.go:121-123`: the output
is a permutation of the input, ordered by the less function.  Stability is
deliberately absent: `sort.Slice` is documented as not stable, so every
date-descending permutation is a permitted outcome. -/
def sortSliceSpec (input out : List Post) : Prop :=
  input.Perm out ∧ goSortedDesc out

/-- Dates strictly decrease only forwards: any pair of positions whose first
date is strictly after the second's appears in that order. -/
def pairsDescending (out : List Post) : Prop :=
  ∀ i j : Fin out.length, dateAfter (out.get i).Date (out.get j).Date = true → i < j

/-- Stable tie-breaking: posts with equal dates keep the input's relative
order in the output. -/
def tiesStable (input out : List Post) : Prop :=
  ∀ i j : Fin input.length, i < j → (input.get i).Date = (input.get j).Date →
    ∀ i' j' : Fin out.length,
      out.get i' = input.get i → out.get j' = input.get j → i' < j'

/-- Claim C1 as stated: every collection built by `main` (posts parsed by
`parsePosts`, then any outcome of the `sort.Slice` contract) is ordered by
date descending with stable, read-order tie-breaking. -/
def c1Claim : Prop :=
  ∀ (render : String → String) (dir : String) (entries : List DirEntry)
    (input out : List Post),
    parsePosts render dir entries = .ok input →
    sortSliceSpec input out →
    pairsDescending out ∧ tiesStable input out

/-! ## The earlier hand-rolled `parsePost` variant

A previous generation of the program (kept in the repository) parses front
matter by hand: a document whose first line is not `---` is treated as
having no metadata and the whole content as body, after which field
validation applies.  Modelled from that variant's source. -/

/-- Model of `Post` of the hand-rolled variant (no cover, no structured data). -/
structure PostV2 where
  Title : String
  Date : CalDate
  Description : String
  Slug : String
  Content : String
deriving DecidableEq, Repr

/-- The metadata loop of the hand-rolled variant: scan trimmed lines until a
closing `---`, collecting `title:`, `date:` (parsed eagerly, failing fast on
an unparsable value) and `description:`.  Returns the fields and the body
lines (`none` when no closing delimiter was found).  The date accumulator
starts at the Go zero time `⟨1,1,1⟩`, matching `date.IsZero()`. -/
def scanMetaV2 (filename : String) :
    List String → String → String → CalDate →
    Except PostError (String × String × CalDate × Option (List String))
  | [], t, d, dt => .ok (t, d, dt, none)
  | l :: rest, t, d, dt =>
    let line := trimSpace l
    if line = "---" then .ok (t, d, dt, some rest)
    else if startsWithKey line ("title:") then
      scanMetaV2 filename rest (trimSpace (dropKey line ("title:"))) d dt
    else if startsWithKey line ("date:") then
      let dateStr := trimSpace (dropKey line ("date:"))
      match parseDate dateStr with
      | none => .error (.invalidDate dateStr filename)
      | some p => scanMetaV2 filename rest t d p
    else if startsWithKey line ("description:") then
      scanMetaV2 filename rest t (trimSpace (dropKey line ("description:"))) dt
    else scanMetaV2 filename rest t d dt

/-- Validation and construction tail of the hand-rolled variant: empty title
fails first, then a zero date (never set, or literally `0001-01-01`), then
the body is rendered and the post built. -/
def finishV2 (render : String → String) (filename title desc : String)
    (date : CalDate) (body : String) : Except PostError PostV2 :=
  if title = "" then .error (.missingTitle filename)
  else if date = (⟨1, 1, 1⟩ : CalDate) then .error (.missingDate filename)
  else .ok { Title := title
             Date := date
             Description := desc
             Slug := goTrimSuffix filename (".md")
             Content := render body }

/-- The hand-rolled `parsePost` variant: if the first (trimmed) line is the
delimiter, scan the metadata block (failing when it never closes); otherwise
the metadata is empty and the entire content is the body.  Field validation
then applies. -/
def parsePostV2 (render : String → String) (filename content : String) :
    Except PostError PostV2 :=
  let lines := goSplitLines content
  if trimSpace (lines.headD ("")) = "---" then
    match scanMetaV2 filename (lines.drop 1) ("") ("") ⟨1, 1, 1⟩ with
    | .error e => .error e
    | .ok (_, _, _, none) => .error (.missingClosing filename)
    | .ok (t, d, dt, some bodyLines) =>
      finishV2 render filename t d dt (joinNL bodyLines)
  else finishV2 render filename ("") ("") ⟨1, 1, 1⟩ (joinNL lines)

/-! ## The feed template's `cdata` helper (`main.go:47-50`)

`"cdata": func(s any) string { str := fmt.Sprintf("%v", s); return
strings.ReplaceAll(str, "]]>", "]]]]><![CDATA[>") }` — the helper's output
is emitted inside a `<![CDATA[` ... `]]>` block in the feed template.
`fmt.Sprintf("%v", s)` is the identity on strings, which is how the
template applies it.  Everything is modelled on `List Char`. -/

/-- The CDATA terminator `]]>`. -/
def cdataEnd : List Char := [']', ']', '>']

/-- The replacement `]]]]><![CDATA[>` inserted for each occurrence of
`]]>` (close the section after `]]`, open a new one before `>`). -/
def cdataRepl : List Char :=
  [']', ']', ']', ']', '>', '<', '!', '[', 'C', 'D', 'A', 'T', 'A', '['] ++ ['>']

/-- The CDATA opener `<![CDATA[`. -/
def cdataOpen : List Char := ['<', '!', '[', 'C', 'D', 'A', 'T', 'A', '[']

/-- Split a character list at the first occurrence of `]]>`: the characters
before it and the characters after it (Go `strings.Index` semantics). -/
def splitFirst : List Char → Option (List Char × List Char)
  | [] => none
  | c :: cs =>
    if (c :: cs).take 3 = cdataEnd then some ([], cs.drop 2)
    else (splitFirst cs).map (fun pr => (c :: pr.1, pr.2))

/-- Model of `strings.ReplaceAll(str, "]]>", "]]]]><![CDATA[>")`: replace
every (leftmost, non-overlapping) occurrence, never rescanning the inserted
replacement. -/
def cdataEscape (l : List Char) : List Char :=
  match l with
  | [] => []
  | c :: cs =>
    if (c :: cs).take 3 = cdataEnd then cdataRepl ++ cdataEscape (cs.drop 2)
    else c :: cdataEscape cs
termination_by l.length
decreasing_by
  · simp only [List.length_cons, List.length_drop]; omega
  · simp only [List.length_cons]; omega

/-- The `cdata` template helper itself, for string values. -/
def cdata (s : String) : String := ⟨cdataEscape s.data⟩

/-- How the feed template emits the helper's output: wrapped as
`<![CDATA[` ... `]]>`. -/
def cdataWrap (l : List Char) : List Char := cdataOpen ++ l ++ cdataEnd

/-- A reference XML CDATA reader, fuel-bounded: after an opener, the raw
text of a section runs to the **first** `]]>` (early termination is exactly
what a stray `]]>` in the value would cause); consecutive sections
concatenate; the input must be consumed exactly. -/
def scanTailFuel : Nat → List Char → Option (List Char)
  | 0, _ => none
  | fuel + 1, l =>
    match splitFirst l with
    | none => none
    | some (raw, rest) =>
      if rest = [] then some raw
      else if cdataOpen.isPrefixOf rest then
        (scanTailFuel fuel (rest.drop 9)).map (fun t => raw ++ t)
      else none

/-- Decode a maximal run of XML CDATA sections to the text they denote;
`none` when the input is not exactly such a run. -/
def decodeCDATA (l : List Char) : Option (List Char) :=
  if cdataOpen.isPrefixOf l then scanTailFuel l.length (l.drop 9) else none

/-! ## Concrete sample inputs (used to instantiate the theorems) -/

/-- A minimal valid post document. -/
def contentA : String := "---\ntitle: A\ndate: 2025-01-01\n---\nx"

/-- A second valid document with the same date as `contentA`. -/
def contentB : String := "---\ntitle: B\ndate: 2025-01-01\n---\ny"

/-- A valid document with a later date, a description and a cover. -/
def contentC : String := "---\ntitle: C\ndate: 2025-03-04\ndescription: D\ncover: img.png\n---\nz"

/-- The post `parsePost id "a.md" contentA` produces. -/
def postA : Post :=
  { Title := "A", Date := ⟨2025, 1, 1⟩, Description := "", Cover := "",
    Slug := "a", Content := contentA,
    JSONLD := mkJsonLD ⟨"A", "2025-01-01", "", ""⟩ ⟨2025, 1, 1⟩ ("a") }

/-- The post `parsePost id "b.md" contentB` produces. -/
def postB : Post :=
  { Title := "B", Date := ⟨2025, 1, 1⟩, Description := "", Cover := "",
    Slug := "b", Content := contentB,
    JSONLD := mkJsonLD ⟨"B", "2025-01-01", "", ""⟩ ⟨2025, 1, 1⟩ ("b") }

/-- The post `parsePost id "c.md" contentC` produces. -/
def postC : Post :=
  { Title := "C", Date := ⟨2025, 3, 4⟩, Description := "D", Cover := "img.png",
    Slug := "c", Content := contentC,
    JSONLD := mkJsonLD ⟨"C", "2025-03-04", "D", "img.png"⟩ ⟨2025, 3, 4⟩ ("c") }

/-- The post `parsePost id ".md" contentA` produces (empty slug). -/
def postDotMd : Post :=
  { Title := "A", Date := ⟨2025, 1, 1⟩, Description := "", Cover := "",
    Slug := "", Content := contentA,
    JSONLD := mkJsonLD ⟨"A", "2025-01-01", "", ""⟩ ⟨2025, 1, 1⟩ ("") }

/-! # Theorems -/

/-- Inversion of a successful `parsePost`: the document had front matter,
its title was non-empty, its date parsed, and the post is exactly the record
built from the decoded metadata. -/
theorem parsePost_ok {render : String → String} {filename content : String} {p : Post}
    (h : parsePost render filename content = .ok p) :
    ∃ metaLines body date,
      frontmatterSplit content = some (metaLines, body) ∧
      (decodeMeta metaLines).title ≠ "" ∧
      parseDate (decodeMeta metaLines).date = some date ∧
      p = { Title := (decodeMeta metaLines).title
            Date := date
            Description := (decodeMeta metaLines).description
            Cover := (decodeMeta metaLines).cover
            Slug := goTrimSuffix filename (".md")
            Content := render content
            JSONLD := mkJsonLD (decodeMeta metaLines) date (goTrimSuffix filename (".md")) } := by
  unfold parsePost at h
  split at h
  · exact absurd h (by simp)
  · next metaLines body hfm =>
    simp only at h
    split at h
    · exact absurd h (by simp)
    · next ht =>
      split at h
      · exact absurd h (by simp)
      · next date hpd =>
        refine ⟨metaLines, body, date, hfm, ht, hpd, ?_⟩
        simpa using h.symm

/-- C3: for every parsed document, an absent or (after trimming) empty title
makes `parsePost` fail with the missing-title error carrying the filename;
a present title with an absent or unparsable date makes it fail with the
invalid-date error carrying the offending raw date string and the
filename. -/
theorem C3_title_date_validation (render : String → String)
    (filename content : String) (metaLines : List String) (body : String)
    (hfm : frontmatterSplit content = some (metaLines, body)) :
    ((decodeMeta metaLines).title = "" →
      parsePost render filename content = .error (.missingTitle filename)) ∧
    ((decodeMeta metaLines).title ≠ "" →
      parseDate (decodeMeta metaLines).date = none →
      parsePost render filename content =
        .error (.invalidDate (decodeMeta metaLines).date filename)) := by
  constructor
  · intro ht
    simp only [parsePost, hfm, ht, if_pos]
  · intro ht hd
    simp only [parsePost, hfm, if_neg ht, hd]

/-- Witness for C3 at concrete inputs: a document whose metadata has a title
but an unparsable date fails with `invalidDate "bad"`, and one whose
metadata block lacks a title fails with `missingTitle`. -/
theorem C3_title_date_validation_witness :
    parsePost id ("a.md") ("---\ntitle: T\ndate: bad\n---\nx") =
      .error (.invalidDate ("bad") ("a.md")) ∧
    parsePost id ("b.md") ("---\ndate: 2020-01-01\n---\nx") =
      .error (.missingTitle ("b.md")) := by
  constructor
  · exact (C3_title_date_validation id ("a.md") ("---\ntitle: T\ndate: bad\n---\nx")
      ["title: T", "date: bad"] ("x") (by decide)).2 (by decide) (by decide)
  · exact (C3_title_date_validation id ("b.md") ("---\ndate: 2020-01-01\n---\nx")
      ["date: 2020-01-01"] ("x") (by decide)).1 (by decide)

/-- C9: when the metadata lacks both a non-empty title and a valid date,
`parsePost` reports the missing-title error and not the invalid-date error:
the title check runs first. -/
theorem C9_title_before_date (render : String → String)
    (filename content : String) (metaLines : List String) (body : String)
    (hfm : frontmatterSplit content = some (metaLines, body))
    (ht : (decodeMeta metaLines).title = "")
    (_hd : parseDate (decodeMeta metaLines).date = none) :
    parsePost render filename content = .error (.missingTitle filename) ∧
    parsePost render filename content ≠
      .error (.invalidDate (decodeMeta metaLines).date filename) := by
  have hm : parsePost render filename content = .error (.missingTitle filename) := by
    simp only [parsePost, hfm, ht, if_pos]
  refine ⟨hm, ?_⟩
  rw [hm]
  intro hcon
  injection hcon with hcon
  cases hcon

/-- Witness for C9: a document with an empty metadata block (no title, no
date) fails with the missing-title error, not the invalid-date error. -/
theorem C9_title_before_date_witness :
    parsePost id ("e.md") ("---\n---\nx") = .error (.missingTitle ("e.md")) ∧
    parsePost id ("e.md") ("---\n---\nx") ≠
      .error (.invalidDate (decodeMeta []).date ("e.md")) :=
  C9_title_before_date id ("e.md") ("---\n---\nx") [] ("x")
    (by decide) (by decide) (by decide)

/-- C5: for every validated post, the structured data has headline equal to
the post's title, omits the description field exactly when the description
is empty, has canonical page id `siteURL ++ "/" ++ slug ++ ".html"`, and
carries `image = siteURL ++ "/" ++ cover` exactly when a cover is present
(omitted entirely otherwise). -/
theorem C5_structured_data (render : String → String)
    (filename content : String) (p : Post)
    (h : parsePost render filename content = .ok p) :
    p.JSONLD.headline = p.Title ∧
    (p.Description = "" → p.JSONLD.description = none) ∧
    (p.Description ≠ "" → p.JSONLD.description = some p.Description) ∧
    p.JSONLD.mainEntityOfPage.id = siteURL ++ "/" ++ p.Slug ++ ".html" ∧
    (p.Cover = "" → p.JSONLD.image = none) ∧
    (p.Cover ≠ "" → p.JSONLD.image = some (siteURL ++ "/" ++ p.Cover)) := by
  obtain ⟨metaLines, body, date, hfm, ht, hpd, hp⟩ := parsePost_ok h
  subst hp
  refine ⟨rfl, ?_, ?_, rfl, ?_, ?_⟩ <;> intro hc <;> simp only [] at hc <;>
    simp [mkJsonLD, hc]

/-- Witness for C5 on a concrete post with description and cover present. -/
theorem C5_structured_data_witness :
    postC.JSONLD.headline = postC.Title ∧
    (postC.Description = "" → postC.JSONLD.description = none) ∧
    (postC.Description ≠ "" → postC.JSONLD.description = some postC.Description) ∧
    postC.JSONLD.mainEntityOfPage.id = siteURL ++ "/" ++ postC.Slug ++ ".html" ∧
    (postC.Cover = "" → postC.JSONLD.image = none) ∧
    (postC.Cover ≠ "" → postC.JSONLD.image = some (siteURL ++ "/" ++ postC.Cover)) :=
  C5_structured_data id ("c.md") contentC postC (by decide)

/-- C6: the slug of every post built from filename `F` is exactly
`strings.TrimSuffix F ".md"` — no lowercasing, no derivation from the
title — it is the same for any content and renderer (stable across runs),
and when `F` ends in `.md` the slug is `F` with that extension removed. -/
theorem C6_slug_derivation (render render' : String → String)
    (filename content content' : String) (p p' : Post)
    (h : parsePost render filename content = .ok p)
    (h' : parsePost render' filename content' = .ok p') :
    p.Slug = goTrimSuffix filename (".md") ∧
    p'.Slug = p.Slug ∧
    (goHasSuffix filename (".md") = true → p.Slug ++ ".md" = filename) := by
  obtain ⟨ml, b, d, hfm, ht, hpd, hp⟩ := parsePost_ok h
  obtain ⟨ml', b', d', hfm', ht', hpd', hp'⟩ := parsePost_ok h'
  subst hp; subst hp'
  refine ⟨rfl, rfl, ?_⟩
  intro hsfx
  simp only [goTrimSuffix, hsfx, if_pos]
  have hsuf : (".md").data <:+ filename.data := by
    exact List.isSuffixOf_iff_suffix.mp hsfx
  obtain ⟨t, hts⟩ := hsuf
  have hlen : filename.data.length - (".md").data.length = t.length := by
    rw [← hts, List.length_append]; simp
  have htake : filename.data.take (filename.data.length - (".md").data.length) = t := by
    rw [hlen, ← hts, List.take_left]
  rw [htake]
  have : (⟨t⟩ : String) ++ (".md") = (⟨t ++ (".md").data⟩ : String) := rfl
  rw [this, hts]

/-- Witness for C6: the same filename with different contents and renderers
yields the same slug `"a"`, which restores the filename when `.md` is
appended. -/
theorem C6_slug_derivation_witness :
    postA.Slug = goTrimSuffix ("a.md") (".md") ∧
    postA.Slug = postA.Slug ∧
    (goHasSuffix ("a.md") (".md") = true → postA.Slug ++ ".md" = "a.md") := by
  have h := C6_slug_derivation id id ("a.md") contentA contentA postA postA
    (by decide) (by decide)
  exact ⟨h.1, rfl, h.2.2⟩

/-- Counterexample to C2 as stated: the document `"# Hi"` has no opening
front-matter delimiter, and `parsePost` of `main.go` fails on it with the
missing-front-matter error — it does not treat the document as having empty
metadata (which would instead surface as the missing-title validation
error). -/
theorem C2_missing_front_matter_counterexample :
    parsePost id ("x.md") ("# Hi") = .error (.missingFrontMatter ("x.md")) ∧
    (Except.error (PostError.missingFrontMatter ("x.md")) : Except PostError Post) ≠
      Except.error (PostError.missingTitle ("x.md")) := by
  constructor
  · decide
  · decide

/-- C2 (amended): for every document whose first line (trimmed) is not the
`---` delimiter, the goldmark-based `parsePost` of `main.go` fails with the
missing-front-matter error, while the earlier hand-rolled variant treats the
document as having empty metadata and the entire content as body, so its
subsequent field validation fails with the missing-title error. -/
theorem C2_front_matter_policy (render render2 : String → String)
    (filename content : String)
    (h : trimSpace ((goSplitLines content).headD ("")) ≠ "---") :
    parsePost render filename content = .error (.missingFrontMatter filename) ∧
    parsePostV2 render2 filename content = .error (.missingTitle filename) := by
  constructor
  · cases hls : goSplitLines content with
    | nil => simp [parsePost, frontmatterSplit, hls]
    | cons first rest =>
      have hfirst : first ≠ "---" := by
        intro he
        apply h
        rw [hls, List.headD_cons, he]
        decide
      simp [parsePost, frontmatterSplit, hls, hfirst]
  · unfold parsePostV2
    rw [if_neg h]
    rfl

/-- Witness for the amended C2 at the concrete delimiter-free document
`"# Hi"`. -/
theorem C2_front_matter_policy_witness :
    parsePost id ("w.md") ("# Hi") = .error (.missingFrontMatter ("w.md")) ∧
    parsePostV2 id ("w.md") ("# Hi") = .error (.missingTitle ("w.md")) :=
  C2_front_matter_policy id id ("w.md") ("# Hi") (by decide)

/-- C10: a file named exactly `.md` passes the extension filter of
`parsePosts`; a successful parse of it yields the empty slug, whose page is
written to `public/.html`; and no operation enforces non-emptiness or
uniqueness of slugs — every post gets a page and equal slugs collide on the
same output path. -/
theorem C10_dot_md_empty_slug :
    (∀ c : Except String String, skipEntry ⟨".md", false, c⟩ = false) ∧
    (∀ (render : String → String) (content : String) (p : Post),
      parsePost render (".md") content = .ok p →
      p.Slug = "" ∧ pagePath p = "public/.html") ∧
    (∀ posts : List Post, (postPagePaths posts).length = posts.length) ∧
    (∀ p q : Post, p.Slug = q.Slug → pagePath p = pagePath q) := by
  refine ⟨fun c => rfl, ?_, fun posts => by simp [postPagePaths], ?_⟩
  · intro render content p h
    obtain ⟨ml, b, d, hfm, ht, hpd, hp⟩ := parsePost_ok h
    subst hp
    constructor
    · show goTrimSuffix (".md") (".md") = ""
      decide
    · show ("public/" ++ goTrimSuffix (".md") (".md") ++ ".html" = "public/.html")
      decide
  · intro p q hpq
    simp [pagePath, hpq]

/-- Witness for C10: the `.md` entry is processed, the concrete document
parses to a post with empty slug and page path `public/.html`, and two
posts sharing a slug share a page path. -/
theorem C10_dot_md_empty_slug_witness :
    skipEntry ⟨".md", false, .ok contentA⟩ = false ∧
    (parsePost id (".md") contentA = .ok postDotMd ∧
      postDotMd.Slug = "" ∧ pagePath postDotMd = "public/.html") ∧
    pagePath { postA with Slug := "" } = pagePath { postB with Slug := "" } := by
  have h := C10_dot_md_empty_slug
  refine ⟨h.1 (.ok contentA), ⟨?_, ?_⟩, ?_⟩
  · decide
  · exact h.2.1 id contentA postDotMd (by decide)
  · exact h.2.2.2 { postA with Slug := "" } { postB with Slug := "" } rfl

/-- Lemma: `parsePosts` skips a directory or non-`.md` entry. -/
theorem parsePosts_cons_skip (render : String → String) (dir : String)
    {e : DirEntry} (es : List DirEntry) (hs : skipEntry e = true) :
    parsePosts render dir (e :: es) = parsePosts render dir es := by
  simp [parsePosts, hs]

/-- Lemma: `parsePosts` stops at a processed entry whose read failed. -/
theorem parsePosts_cons_readErr (render : String → String) (dir : String)
    {e : DirEntry} (es : List DirEntry) {cause : String}
    (hs : skipEntry e = false) (hc : e.content = .error cause) :
    parsePosts render dir (e :: es) =
      .error (.readError (joinPath dir e.name) cause) := by
  simp [parsePosts, hs, hc]

/-- Lemma: `parsePosts` stops at a processed entry whose parse failed. -/
theorem parsePosts_cons_parseErr (render : String → String) (dir : String)
    {e : DirEntry} (es : List DirEntry) {content : String} {pe : PostError}
    (hs : skipEntry e = false) (hc : e.content = .ok content)
    (hp : parsePost render e.name content = .error pe) :
    parsePosts render dir (e :: es) = .error (.parseError e.name pe) := by
  simp [parsePosts, hs, hc, hp]

/-- Lemma: `parsePosts` conses a successfully parsed entry onto the tail result. -/
theorem parsePosts_cons_okPost (render : String → String) (dir : String)
    {e : DirEntry} (es : List DirEntry) {content : String} {post : Post}
    (hs : skipEntry e = false) (hc : e.content = .ok content)
    (hp : parsePost render e.name content = .ok post) :
    parsePosts render dir (e :: es) =
      (parsePosts render dir es).map (fun ps => post :: ps) := by
  simp [parsePosts, hs, hc, hp]

/-- C7: `parsePosts` ignores subdirectories and files without the `.md`
extension (its result equals the result on the filtered listing); an error
on any prefix of the listing is the whole result no matter what follows
(fail-fast, and the `Except.error` result carries no partial collection);
and every error names a processed entry — read errors carry its joined
path, parse errors its filename. -/
theorem C7_parse_posts_fail_fast (render : String → String) (dir : String) :
    (∀ entries : List DirEntry,
      parsePosts render dir entries =
        parsePosts render dir (entries.filter (fun e => !skipEntry e))) ∧
    (∀ (es₁ es₂ : List DirEntry) (err : PostsError),
      parsePosts render dir es₁ = .error err →
      parsePosts render dir (es₁ ++ es₂) = .error err) ∧
    (∀ (entries : List DirEntry) (err : PostsError),
      parsePosts render dir entries = .error err →
      ∃ e ∈ entries, skipEntry e = false ∧ errNamesEntry dir err e) := by
  refine ⟨?_, ?_, ?_⟩
  · intro entries
    induction entries with
    | nil => rfl
    | cons e es ih =>
      cases hs : skipEntry e with
      | true =>
        rw [parsePosts_cons_skip render dir es hs]
        simpa [List.filter_cons, hs] using ih
      | false =>
        have hkeep : (!skipEntry e) = true := by simp [hs]
        cases hc : e.content with
        | error cause =>
          rw [parsePosts_cons_readErr render dir es hs hc,
            List.filter_cons, if_pos hkeep,
            parsePosts_cons_readErr render dir _ hs hc]
        | ok content =>
          cases hp : parsePost render e.name content with
          | error pe =>
            rw [parsePosts_cons_parseErr render dir es hs hc hp,
              List.filter_cons, if_pos hkeep,
              parsePosts_cons_parseErr render dir _ hs hc hp]
          | ok post =>
            rw [parsePosts_cons_okPost render dir es hs hc hp,
              List.filter_cons, if_pos hkeep,
              parsePosts_cons_okPost render dir _ hs hc hp, ih]
  · intro es₁ es₂ err h
    induction es₁ with
    | nil => simp [parsePosts] at h
    | cons e es ih =>
      rw [List.cons_append]
      cases hs : skipEntry e with
      | true =>
        rw [parsePosts_cons_skip render dir es hs] at h
        rw [parsePosts_cons_skip render dir _ hs]
        exact ih h
      | false =>
        cases hc : e.content with
        | error cause =>
          rw [parsePosts_cons_readErr render dir es hs hc] at h
          rw [parsePosts_cons_readErr render dir _ hs hc]
          exact h
        | ok content =>
          cases hp : parsePost render e.name content with
          | error pe =>
            rw [parsePosts_cons_parseErr render dir es hs hc hp] at h
            rw [parsePosts_cons_parseErr render dir _ hs hc hp]
            exact h
          | ok post =>
            rw [parsePosts_cons_okPost render dir es hs hc hp] at h
            rw [parsePosts_cons_okPost render dir _ hs hc hp]
            cases htail : parsePosts render dir es with
            | error err' =>
              rw [htail] at h
              simp only [Except.map] at h
              injection h with h
              subst h
              rw [ih htail]
              rfl
            | ok ps =>
              rw [htail] at h
              simp [Except.map] at h
  · intro entries err h
    induction entries with
    | nil => simp [parsePosts] at h
    | cons e es ih =>
      cases hs : skipEntry e with
      | true =>
        rw [parsePosts_cons_skip render dir es hs] at h
        obtain ⟨e', he', hsk, hn⟩ := ih h
        exact ⟨e', List.mem_cons_of_mem e he', hsk, hn⟩
      | false =>
        cases hc : e.content with
        | error cause =>
          rw [parsePosts_cons_readErr render dir es hs hc] at h
          injection h with h
          exact ⟨e, List.mem_cons_self e es, hs,
            by simp [errNamesEntry, ← h]⟩
        | ok content =>
          cases hp : parsePost render e.name content with
          | error pe =>
            rw [parsePosts_cons_parseErr render dir es hs hc hp] at h
            injection h with h
            exact ⟨e, List.mem_cons_self e es, hs,
              by simp [errNamesEntry, ← h]⟩
          | ok post =>
            rw [parsePosts_cons_okPost render dir es hs hc hp] at h
            cases htail : parsePosts render dir es with
            | error err' =>
              rw [htail] at h
              simp only [Except.map] at h
              injection h with h
              subst h
              obtain ⟨e', he', hsk, hn⟩ := ih htail
              exact ⟨e', List.mem_cons_of_mem e he', hsk, hn⟩
            | ok ps =>
              rw [htail] at h
              simp [Except.map] at h

/-- Witness for C7: a directory whose entries are a subdirectory, a
non-markdown file and an unparsable post; the filter drops the first two,
the parse failure of `bad.md` is the whole result also with more entries
appended, and the error names `bad.md`. -/
theorem C7_parse_posts_fail_fast_witness :
    parsePosts id ("posts")
        [⟨"sub", true, .ok ("")⟩, ⟨"notes.txt", false, .ok ("")⟩,
         ⟨"bad.md", false, .ok ("# Hi")⟩] =
      parsePosts id ("posts")
        ([⟨"sub", true, .ok ("")⟩, ⟨"notes.txt", false, .ok ("")⟩,
          ⟨"bad.md", false, .ok ("# Hi")⟩].filter (fun e => !skipEntry e)) ∧
    parsePosts id ("posts")
        ([⟨"bad.md", false, .ok ("# Hi")⟩] ++ [⟨"a.md", false, .ok contentA⟩]) =
      .error (.parseError ("bad.md") (.missingFrontMatter ("bad.md"))) ∧
    ∃ e ∈ [(⟨"bad.md", false, .ok ("# Hi")⟩ : DirEntry)], skipEntry e = false ∧
      errNamesEntry ("posts")
        (.parseError ("bad.md") (.missingFrontMatter ("bad.md"))) e := by
  have h := C7_parse_posts_fail_fast id ("posts")
  refine ⟨h.1 _, ?_, ?_⟩
  · exact h.2.1 [⟨"bad.md", false, .ok ("# Hi")⟩] [⟨"a.md", false, .ok contentA⟩]
      (.parseError ("bad.md") (.missingFrontMatter ("bad.md"))) (by decide)
  · exact h.2.2 [⟨"bad.md", false, .ok ("# Hi")⟩]
      (.parseError ("bad.md") (.missingFrontMatter ("bad.md"))) (by decide)

/-- Lemma: `Time.After` is irreflexive. -/
theorem dateAfter_irrefl (d : CalDate) : dateAfter d d = false := by
  simp [dateAfter]

/-- The running maximum of `newestDate` never moves past dates that are not
strictly after it. -/
theorem foldl_newest_const (l : List Post) (m : CalDate)
    (h : ∀ q ∈ l, dateAfter q.Date m = false) :
    l.foldl (fun m q => if dateAfter q.Date m then q.Date else m) m = m := by
  induction l with
  | nil => rfl
  | cons q l ih =>
    have hq : dateAfter q.Date m = false := h q (List.mem_cons_self q l)
    simp only [List.foldl_cons, hq, Bool.false_eq_true, if_false]
    exact ih (fun r hr => h r (List.mem_cons_of_mem q hr))

/-- On a date-descending collection the head's date is the newest date. -/
theorem newestDate_head (p : Post) (rest : List Post)
    (h : goSortedDesc (p :: rest)) : newestDate p rest = p.Date := by
  have hall : ∀ q ∈ rest, dateAfter q.Date p.Date = false :=
    (List.pairwise_cons.mp h).1
  exact foldl_newest_const rest p.Date hall

/-- C4: on every non-empty date-descending collection, the `updated`
timestamp of `generateFeed` and the last-modified date of `generateSitemap`
are the formatted newest publish date (which no post's date is after);
on the empty collection both fall back to the supplied current time. -/
theorem C4_feed_sitemap_updated (posts : List Post) (nowRFC nowISO : String)
    (hs : goSortedDesc posts) :
    (posts = [] →
      feedUpdated posts nowRFC = nowRFC ∧
      sitemapLastUpdated posts nowISO = nowISO) ∧
    (∀ p rest, posts = p :: rest →
      feedUpdated posts nowRFC = dateRFC3339 (newestDate p rest) ∧
      sitemapLastUpdated posts nowISO = dateISO (newestDate p rest) ∧
      ∀ q ∈ posts, dateAfter q.Date (newestDate p rest) = false) := by
  constructor
  · intro he
    subst he
    exact ⟨rfl, rfl⟩
  · intro p rest he
    subst he
    rw [newestDate_head p rest hs]
    refine ⟨rfl, rfl, ?_⟩
    intro q hq
    rcases List.mem_cons.mp hq with h1 | h2
    · rw [h1]
      exact dateAfter_irrefl p.Date
    · exact (List.pairwise_cons.mp hs).1 q h2

/-- Witness for C4 on the concrete sorted collection `[postC, postA]`
(dates 2025-03-04 and 2025-01-01) and on the empty collection. -/
theorem C4_feed_sitemap_updated_witness :
    (feedUpdated [postC, postA] ("nowR") = dateRFC3339 (newestDate postC [postA]) ∧
      sitemapLastUpdated [postC, postA] ("nowI") = dateISO (newestDate postC [postA]) ∧
      ∀ q ∈ [postC, postA], dateAfter q.Date (newestDate postC [postA]) = false) ∧
    (feedUpdated [] ("nowR") = "nowR" ∧ sitemapLastUpdated [] ("nowI") = "nowI") := by
  constructor
  · exact (C4_feed_sitemap_updated [postC, postA] ("nowR") ("nowI")
      (by simp only [goSortedDesc]; decide)).2 postC [postA] rfl
  · exact (C4_feed_sitemap_updated [] ("nowR") ("nowI")
      (List.Pairwise.nil)).1 rfl

/-- Counterexample to C1 as stated: with the two equal-dated documents
`a.md` and `b.md` (read in that order), the output `[postB, postA]` is a
permitted outcome of the `sort.Slice` contract — it is a date-descending
permutation of the parsed collection — yet the equal-date posts do not keep
their read order, so the stable-tie half of the claim fails. -/
theorem C1_stable_ties_counterexample : ¬ c1Claim := by
  intro h
  have hparse : parsePosts id ("posts")
      [⟨"a.md", false, .ok contentA⟩, ⟨"b.md", false, .ok contentB⟩] =
        .ok [postA, postB] := by decide
  have hsort : sortSliceSpec [postA, postB] [postB, postA] := by
    constructor
    · exact List.Perm.swap postB postA []
    · simp only [goSortedDesc]
      decide
  obtain ⟨-, hties⟩ := h id ("posts")
    [⟨"a.md", false, .ok contentA⟩, ⟨"b.md", false, .ok contentB⟩]
    [postA, postB] [postB, postA] hparse hsort
  have hlt := hties ⟨0, by decide⟩ ⟨1, by decide⟩ (by decide) (by decide)
    ⟨1, by decide⟩ ⟨0, by decide⟩ (by decide) (by decide)
  exact absurd hlt (by decide)

/-- C1 (amended): in every collection built by `main` — posts parsed by
`parsePosts`, then sorted by any outcome of the `sort.Slice` contract — a
post whose publish date is strictly later than another's appears before it;
the relative order of equal-date posts is not guaranteed, since `sort.Slice`
is documented as unstable. -/
theorem C1_sort_descending (render : String → String) (dir : String)
    (entries : List DirEntry) (input out : List Post)
    (_hbuilt : parsePosts render dir entries = .ok input)
    (hsort : sortSliceSpec input out) : pairsDescending out := by
  obtain ⟨-, hpair⟩ := hsort
  intro i j haft
  by_contra hij
  have hji : j ≤ i := le_of_not_lt hij
  rcases eq_or_lt_of_le hji with he | hlt
  · rw [← he] at haft
    rw [dateAfter_irrefl] at haft
    cases haft
  · have hf := List.pairwise_iff_get.mp hpair j i hlt
    rw [haft] at hf
    cases hf

/-- Witness for the amended C1: building from the concrete documents `a.md`
(2025-01-01) and `c.md` (2025-03-04) and taking the date-descending
permutation `[postC, postA]` satisfies the sort contract, and the resulting
collection has all strictly-later dates in front. -/
theorem C1_sort_descending_witness : pairsDescending [postC, postA] :=
  C1_sort_descending id ("posts")
    [⟨"a.md", false, .ok contentA⟩, ⟨"c.md", false, .ok contentC⟩]
    [postA, postC] [postC, postA] (by decide)
    ⟨List.Perm.swap postC postA [], by simp only [goSortedDesc]; decide⟩

/-- A list with no `]]>` occurrence: neither at the head nor in the tail. -/
theorem splitFirst_none_cons {c : Char} {cs : List Char}
    (h : splitFirst (c :: cs) = none) :
    splitFirst cs = none ∧ (c :: cs).take 3 ≠ cdataEnd := by
  rw [splitFirst] at h
  by_cases hc : (c :: cs).take 3 = cdataEnd
  · rw [if_pos hc] at h
    cases h
  · rw [if_neg hc] at h
    refine ⟨?_, hc⟩
    cases hcs : splitFirst cs with
    | none => rfl
    | some pr => rw [hcs] at h; cases h

/-- A head match of the `]]>` pattern pins down the first three characters. -/
theorem take3_eq_cdataEnd {c : Char} {cs : List Char}
    (h : (c :: cs).take 3 = cdataEnd) :
    c = ']' ∧ ∃ r, cs = ']' :: '>' :: r := by
  match cs with
  | [] => simp [cdataEnd] at h
  | [x] => simp [cdataEnd] at h
  | x :: y :: r =>
    simp only [List.take_cons, List.take_zero, cdataEnd] at h
    obtain ⟨h1, h2, h3⟩ := by simpa using h
    exact ⟨h1, r, by rw [h2, h3]⟩

/-- Decomposition at the first occurrence: the prefix is occurrence-free and
the input is prefix ++ `]]>` ++ rest. -/
theorem splitFirst_decomp :
    ∀ {l p r : List Char}, splitFirst l = some (p, r) →
      l = p ++ cdataEnd ++ r ∧ splitFirst p = none
  | [], p, r, h => by cases h
  | c :: cs, p, r, h => by
    rw [splitFirst] at h
    by_cases hc : (c :: cs).take 3 = cdataEnd
    · rw [if_pos hc] at h
      injection h with h
      simp only [Prod.mk.injEq] at h
      obtain ⟨h1, h2⟩ := h
      subst h1
      subst h2
      obtain ⟨hcc, r', hcs⟩ := take3_eq_cdataEnd hc
      subst hcc
      refine ⟨?_, rfl⟩
      rw [hcs]
      rfl
    · rw [if_neg hc] at h
      cases hcs : splitFirst cs with
      | none => rw [hcs] at h; cases h
      | some pr =>
        rw [hcs] at h
        obtain ⟨p', r'⟩ := pr
        simp only [Option.map_some'] at h
        injection h with h
        simp only [Prod.mk.injEq] at h
        obtain ⟨h1, h2⟩ := h
        subst h1
        subst h2
        obtain ⟨hdec, hnone⟩ := splitFirst_decomp hcs
        constructor
        · rw [hdec]
          rfl
        · rw [splitFirst]
          have hc' : (c :: p').take 3 ≠ cdataEnd := by
            intro hq
            obtain ⟨hcc, r2, hp'⟩ := take3_eq_cdataEnd hq
            apply hc
            rw [hdec, hp', hcc]
            rfl
          rw [if_neg hc', hnone]
          rfl

/-- Unfolding: escaping the empty list. -/
theorem cdataEscape_nil : cdataEscape [] = [] := by
  rw [cdataEscape]

/-- Unfolding: escaping a non-empty list. -/
theorem cdataEscape_cons (c : Char) (cs : List Char) :
    cdataEscape (c :: cs) =
      if (c :: cs).take 3 = cdataEnd then cdataRepl ++ cdataEscape (cs.drop 2)
      else c :: cdataEscape cs := by
  rw [cdataEscape]

/-- An occurrence-free list escapes to itself. -/
theorem cdataEscape_of_none : ∀ {l : List Char}, splitFirst l = none → cdataEscape l = l
  | [], _ => cdataEscape_nil
  | c :: cs, h => by
    obtain ⟨hcs, hc⟩ := splitFirst_none_cons h
    rw [cdataEscape_cons, if_neg hc, cdataEscape_of_none hcs]

/-- Prepending a character to an occurrence-free prefix of a `]]>`-headed
tail cannot create a head occurrence unless one was already at the head. -/
theorem head_take3_ne (t : List Char) {c : Char} {p : List Char}
    (h : splitFirst (c :: p) = none) :
    (c :: (p ++ cdataEnd ++ t)).take 3 ≠ cdataEnd := by
  obtain ⟨hp, hc⟩ := splitFirst_none_cons h
  intro hq
  obtain ⟨hcc, r, hpr⟩ := take3_eq_cdataEnd hq
  subst hcc
  match p, hpr with
  | [], hpr =>
    rw [List.nil_append] at hpr
    simp [cdataEnd] at hpr
  | [x], hpr =>
    simp only [List.cons_append, List.nil_append, List.cons.injEq] at hpr
    obtain ⟨hx, hpr⟩ := hpr
    simp [cdataEnd] at hpr
  | x :: y :: p', hpr =>
    simp only [List.cons_append, List.cons.injEq] at hpr
    obtain ⟨hx, hy, -⟩ := hpr
    exact hc (by rw [hx, hy]; rfl)

/-- First occurrence after appending `]]>` behind an occurrence-free
prefix. -/
theorem splitFirst_append_end :
    ∀ {u : List Char}, splitFirst u = none → ∀ (t : List Char),
      splitFirst (u ++ cdataEnd ++ t) = some (u, t)
  | [], _, t => by
    rw [List.nil_append]
    rw [show cdataEnd ++ t = ']' :: ']' :: '>' :: t from rfl]
    rw [splitFirst, if_pos (by rfl)]
    rfl
  | c :: u', h, t => by
    obtain ⟨hu', _⟩ := splitFirst_none_cons h
    rw [List.cons_append, List.cons_append, splitFirst,
      if_neg (by simpa using head_take3_ne t h),
      splitFirst_append_end hu' t]
    rfl

/-- Escaping a list whose first occurrence is known. -/
theorem cdataEscape_of_split {l p r : List Char}
    (h : splitFirst l = some (p, r)) :
    cdataEscape l = p ++ cdataRepl ++ cdataEscape r := by
  obtain ⟨hdec, hnone⟩ := splitFirst_decomp h
  subst hdec
  clear h
  induction p with
  | nil =>
    rw [List.nil_append, List.nil_append]
    rw [show cdataEnd ++ r = ']' :: ']' :: '>' :: r from rfl, cdataEscape_cons,
      if_pos (by rfl)]
    rfl
  | cons c p' ih =>
    obtain ⟨hp', _⟩ := splitFirst_none_cons hnone
    rw [List.cons_append, List.cons_append, cdataEscape_cons,
      if_neg (by simpa using head_take3_ne r hnone), ih hp']
    rfl

/-- Appending `]]` to an occurrence-free list keeps it occurrence-free. -/
theorem splitFirst_append_brackets :
    ∀ {p : List Char}, splitFirst p = none →
      splitFirst (p ++ [']', ']']) = none
  | [], _ => by decide
  | c :: p', h => by
    obtain ⟨hp', hc⟩ := splitFirst_none_cons h
    rw [List.cons_append, splitFirst]
    have hc2 : (c :: (p' ++ [']', ']'])).take 3 ≠ cdataEnd := by
      intro hq
      obtain ⟨hcc, r, hpr⟩ := take3_eq_cdataEnd hq
      subst hcc
      match p', hpr with
      | [], hpr => simp [cdataEnd] at hpr
      | [x], hpr =>
        simp only [List.cons_append, List.nil_append, List.cons.injEq] at hpr
        obtain ⟨hx, hpr⟩ := hpr
        simp at hpr
      | x :: y :: p'', hpr =>
        simp only [List.cons_append, List.cons.injEq] at hpr
        obtain ⟨hx, hy, -⟩ := hpr
        exact hc (by rw [hx, hy]; rfl)
    rw [if_neg hc2, splitFirst_append_brackets hp']
    rfl

/-- Prepending `>` to an occurrence-free list keeps it occurrence-free. -/
theorem splitFirst_cons_gt {x : List Char} (h : splitFirst x = none) :
    splitFirst ('>' :: x) = none := by
  rw [splitFirst]
  rw [if_neg (by intro hq; obtain ⟨hcc, -⟩ := take3_eq_cdataEnd hq; cases hcc), h]
  rfl

/-- Escaping never shortens the text. -/
theorem cdataEscape_length (l : List Char) : l.length ≤ (cdataEscape l).length := by
  cases hsp : splitFirst l with
  | none => rw [cdataEscape_of_none hsp]
  | some pr =>
    obtain ⟨p, r⟩ := pr
    have hdec := (splitFirst_decomp hsp).1
    rw [cdataEscape_of_split hsp]
    have hr := cdataEscape_length r
    rw [hdec]
    simp only [List.length_append]
    have h3 : cdataEnd.length = 3 := rfl
    have h15 : cdataRepl.length = 15 := rfl
    omega
termination_by l.length
decreasing_by
  have hdec := (splitFirst_decomp hsp).1
  subst hdec
  simp only [List.length_append]
  have h3 : cdataEnd.length = 3 := rfl
  omega

/-- Scanning the escaped text with any occurrence-free already-read prefix
`a` reconstructs `a ++ s`: the sections close exactly at the inserted
`]]>`s, never early. -/
theorem scanTailFuel_escape (fuel : Nat) :
    ∀ (s a : List Char), s.length + 1 ≤ fuel →
      (∀ x, splitFirst x = none → splitFirst (a ++ x) = none) →
      scanTailFuel fuel (a ++ cdataEscape s ++ cdataEnd) = some (a ++ s) := by
  induction fuel with
  | zero => intro s a hf _; omega
  | succ fuel ih =>
    intro s a hf ha
    cases hsp : splitFirst s with
    | none =>
      rw [cdataEscape_of_none hsp]
      have hsp2 : splitFirst (a ++ s ++ cdataEnd) = some (a ++ s, []) := by
        have := splitFirst_append_end (ha s hsp) []
        simpa using this
      rw [scanTailFuel, hsp2]
      simp
    | some pr =>
      obtain ⟨p, r⟩ := pr
      obtain ⟨hdec, hnop⟩ := splitFirst_decomp hsp
      have h3 : cdataEnd.length = 3 := rfl
      have hlen : s.length = p.length + 3 + r.length := by
        rw [hdec]; simp [List.length_append]; omega
      rw [cdataEscape_of_split hsp]
      have hmass : a ++ (p ++ cdataRepl ++ cdataEscape r) ++ cdataEnd =
          (a ++ (p ++ [']', ']'])) ++ cdataEnd ++
            (cdataOpen ++ '>' :: (cdataEscape r ++ cdataEnd)) := by
        simp [cdataRepl, cdataOpen, cdataEnd]
      rw [hmass]
      have hnoA2 : splitFirst (a ++ (p ++ [']', ']'])) = none :=
        ha _ (splitFirst_append_brackets hnop)
      rw [scanTailFuel, splitFirst_append_end hnoA2 _]
      simp only []
      have hne : ¬(cdataOpen ++ '>' :: (cdataEscape r ++ cdataEnd) = []) := by
        simp [cdataOpen]
      rw [if_neg hne]
      have hpre : cdataOpen.isPrefixOf
          (cdataOpen ++ '>' :: (cdataEscape r ++ cdataEnd)) = true := by
        rw [ List.isPrefixOf_iff_prefix]
        exact List.prefix_append cdataOpen _
      rw [if_pos hpre]
      have hdrop : (cdataOpen ++ '>' :: (cdataEscape r ++ cdataEnd)).drop 9 =
          '>' :: (cdataEscape r ++ cdataEnd) := by
        rw [show (9 : Nat) = cdataOpen.length from rfl, List.drop_left]
      rw [hdrop]
      have hrec := ih r ['>'] (by omega) (fun x hx => splitFirst_cons_gt hx)
      rw [show '>' :: (cdataEscape r ++ cdataEnd) =
        ['>'] ++ cdataEscape r ++ cdataEnd from by simp, hrec]
      rw [hdec]
      simp [cdataEnd]

/-- C8: for every string `s`, the feed template's `cdata` helper output,
wrapped as `<![CDATA[` ... `]]>`, is a run of well-formed CDATA sections —
no `]]>` inside `s` terminates the literal block early — and the decoded
text of that run is exactly `s`. -/
theorem C8_cdata_roundtrip (s : String) :
    decodeCDATA (cdataWrap ((cdata s).data)) = some s.data := by
  show decodeCDATA (cdataWrap (cdataEscape s.data)) = some s.data
  rw [decodeCDATA, cdataWrap]
  have hpre : cdataOpen.isPrefixOf
      (cdataOpen ++ cdataEscape s.data ++ cdataEnd) = true := by
    rw [ List.isPrefixOf_iff_prefix]
    have : cdataOpen ++ cdataEscape s.data ++ cdataEnd =
        cdataOpen ++ (cdataEscape s.data ++ cdataEnd) := by simp
    rw [this]
    exact List.prefix_append cdataOpen _
  rw [if_pos hpre]
  have hdrop : (cdataOpen ++ cdataEscape s.data ++ cdataEnd).drop 9 =
      cdataEscape s.data ++ cdataEnd := by
    have : cdataOpen ++ cdataEscape s.data ++ cdataEnd =
        cdataOpen ++ (cdataEscape s.data ++ cdataEnd) := by simp
    rw [this, show (9 : Nat) = cdataOpen.length from rfl, List.drop_left]
  rw [hdrop]
  have hfuel : s.data.length + 1 ≤
      (cdataOpen ++ cdataEscape s.data ++ cdataEnd).length := by
    have hesc := cdataEscape_length s.data
    simp only [List.length_append]
    have h9 : cdataOpen.length = 9 := rfl
    have h3 : cdataEnd.length = 3 := rfl
    omega
  have := scanTailFuel_escape
    ((cdataOpen ++ cdataEscape s.data ++ cdataEnd).length) s.data []
    hfuel (fun x hx => hx)
  simpa using this

end SiteGen
